import Mathlib

/-!
Verification development for the Octopus Energy tariff-comparison engine
(`custom_components/octopus_energy_tariff_comparison/api.py`).

Shallow embedding conventions:

* UTC instants and local clock times are modelled as natural numbers of
  minutes.  The Python code compares ISO-8601 UTC strings of a uniform
  format lexicographically, which is order-isomorphic to comparing the
  instants themselves, so `Nat` comparisons are a faithful model of every
  string comparison the code performs.  Local clock times (`datetime.time`)
  are minutes since local midnight (0 .. 1439).
* Prices (`value_inc_vat`, standing charges) are modelled as `ℚ`; the
  Python floats are used as exact decimal data by the code (no float
  re-parsing tricks), so exact rational arithmetic models the intended
  arithmetic of the calculator.
* A rate dict is `Rate`; `payment_method` is `Option String`
  (`none` = key absent / null), matching `r.get("payment_method")`.
* A consumption reading dict is `Reading`.  `consumptionDelta` is
  `Option DeltaField` — `none` models a dict lacking the key entirely
  (`reading["consumptionDelta"]` raises `KeyError`), `some .null` a JSON
  null (`float(None)` raises `TypeError`), `some .unparseable` a value
  `float` rejects (`ValueError`), and `some (.num q)` a parseable number.
  `readAt` is the UTC end-of-interval instant; `readAtLocal` is the
  Europe/London local clock time of that same instant (the result of the
  code's `astimezone` conversion, carried as data since the timezone
  table itself is outside the model; the UTC→local conversion is monotone,
  so carrying both fields is faithful).
-/

namespace OctopusTariff

/-- One published rate interval, as returned by the REST rates endpoint
(`valid_from`, `valid_to`, `payment_method`, `value_inc_vat`). -/
structure Rate where
  valid_from : ℕ
  valid_to : Option ℕ
  payment_method : Option String
  value_inc_vat : ℚ
deriving DecidableEq

instance : Inhabited Rate := ⟨⟨0, none, none, 0⟩⟩

/-- `rate.get("payment_method") == "DIRECT_DEBIT"`. -/
def isDD (r : Rate) : Bool := r.payment_method = some "DIRECT_DEBIT"

/-- The value found under a reading's `consumptionDelta` key. -/
inductive DeltaField where
  | num (q : ℚ)
  | unparseable
  | null
deriving DecidableEq

/-- One half-hourly smart-meter telemetry reading. -/
structure Reading where
  consumptionDelta : Option DeltaField
  readAt : ℕ
  readAtLocal : ℕ
deriving DecidableEq

/-- The only Python exception the calculator can raise that we model:
`reading["consumptionDelta"]` on a dict lacking the key. -/
inductive PyError where
  | keyError
deriving DecidableEq

/-! ### Time-of-day schedule constants (minutes since local midnight) -/

/-- `GO_NIGHT_START = time(0, 30)`. -/
def GO_NIGHT_START : ℕ := 30

/-- `GO_NIGHT_END = time(5, 30)`. -/
def GO_NIGHT_END : ℕ := 330

/-- `COSY_PERIODS = [(04:00, 07:00), (13:00, 16:00), (22:00, 00:00)]`. -/
def COSY_PERIODS : List (ℕ × ℕ) := [(240, 420), (780, 960), (1320, 0)]

/-- `COSY_PEAK_START = time(16, 0)`. -/
def COSY_PEAK_START : ℕ := 960

/-- `COSY_PEAK_END = time(19, 0)`. -/
def COSY_PEAK_END : ℕ := 1140

/-- `_is_time_in_period(check_time, start, end)`:
`start <= check_time < end` when `start < end`, otherwise (period crossing
midnight) `check_time >= start or check_time < end`. -/
def isTimeInPeriod (check_time s e : ℕ) : Bool :=
  if s < e then decide (s ≤ check_time ∧ check_time < e)
  else decide (check_time ≥ s ∨ check_time < e)

/-- `_get_go_rate_for_time(dt, day_rate, night_rate)`. -/
def getGoRateForTime (t : ℕ) (day_rate night_rate : ℚ) : ℚ :=
  if isTimeInPeriod t GO_NIGHT_START GO_NIGHT_END then night_rate else day_rate

/-- `_get_cosy_rate_for_time(dt, day_rate, cosy_rate, peak_rate)`:
peak band checked first, then the cosy periods in catalog order, else day. -/
def getCosyRateForTime (t : ℕ) (day_rate cosy_rate peak_rate : ℚ) : ℚ :=
  if isTimeInPeriod t COSY_PEAK_START COSY_PEAK_END then peak_rate
  else if COSY_PERIODS.any (fun p => isTimeInPeriod t p.1 p.2) then cosy_rate
  else day_rate

/-! ### Cost calculator (`_calculate_cost_for_consumption`) -/

/-- `dd_rates = [r for r in unit_rates if payment_method == DIRECT_DEBIT]`,
falling back to `unit_rates` when that filter is empty. -/
def ddOrAll (unit_rates : List Rate) : List Rate :=
  let dd_rates := unit_rates.filter (fun r => isDD r)
  if dd_rates.isEmpty then unit_rates else dd_rates

/-- Python `sorted(set(l))`: the distinct elements in ascending order. -/
def sortedDedup (l : List ℚ) : List ℚ := List.insertionSort (· ≤ ·) l.dedup

/-- `rate_values = sorted(set(float(r["value_inc_vat"]) for r in dd_rates))`. -/
def rateValues (unit_rates : List Rate) : List ℚ :=
  sortedDedup ((ddOrAll unit_rates).map (fun r => r.value_inc_vat))

/-- Python `min` over a list (the empty case is unreachable behind the
length guards and is given a dummy value). -/
def pyMin (l : List ℚ) : ℚ := match l with | [] => 0 | x :: xs => xs.foldl min x

/-- Python `max` over a list (empty case unreachable, dummy value). -/
def pyMax (l : List ℚ) : ℚ := match l with | [] => 0 | x :: xs => xs.foldl max x

/-- The timestamped-mode primary filter: DIRECT_DEBIT payment method,
`valid_from < end_of_day`, and `valid_to` null or `> start_of_day`.
(`valid_from` is always a nonempty ISO string, so its Python truthiness
test is always true and is not modelled.) -/
def activeFilter (dayStart dayEnd : ℕ) (r : Rate) : Bool :=
  isDD r && decide (r.valid_from < dayEnd) &&
    (match r.valid_to with | none => true | some vt => decide (dayStart < vt))

/-- `applicable_rates` of the timestamped branch: the DIRECT_DEBIT filter,
falling back — when it selects nothing — to
`[r for r in unit_rates if r.get("valid_from", "") < end_of_day_utc]`
(note: the fallback checks only `valid_from`, not `valid_to`). -/
def applicableRates (unit_rates : List Rate) (dayStart dayEnd : ℕ) : List Rate :=
  let primary := unit_rates.filter (activeFilter dayStart dayEnd)
  if primary.isEmpty then unit_rates.filter (fun r => decide (r.valid_from < dayEnd))
  else primary

/-- `d[k] = v` on a Python dict modelled as an association list: replace in
place if the key is present, append otherwise. -/
def setAssoc : List (ℕ × ℚ) → ℕ → ℚ → List (ℕ × ℚ)
  | [], k, v => [(k, v)]
  | p :: rest, k, v => if p.1 = k then (k, v) :: rest else p :: setAssoc rest k v

/-- One step of building `rate_map`:
`if valid_from not in rate_map or payment_method == DIRECT_DEBIT: rate_map[valid_from] = value`. -/
def insertRateEntry (m : List (ℕ × ℚ)) (r : Rate) : List (ℕ × ℚ) :=
  if (m.lookup r.valid_from).isNone || isDD r then setAssoc m r.valid_from r.value_inc_vat
  else m

/-- `rate_map` built by iterating over the applicable rates in order. -/
def buildRateMap (rs : List Rate) : List (ℕ × ℚ) :=
  rs.foldl insertRateEntry []

/-- Python `sorted(rate_map.items())`; the keys of a dict are distinct, so
sorting the pairs by key models the lexicographic tuple sort. -/
def sortByKey (m : List (ℕ × ℚ)) : List (ℕ × ℚ) :=
  List.insertionSort (fun a b => a.1 ≤ b.1) m

/-- `sorted_rates` of the timestamped branch. -/
def sortedRates (unit_rates : List Rate) (dayStart dayEnd : ℕ) : List (ℕ × ℚ) :=
  sortByKey (buildRateMap (applicableRates unit_rates dayStart dayEnd))

/-- The per-reading timestamped lookup: scan `reversed(sorted_rates)` for the
first entry with `rate_time < read_time` (strict, because `readAt` is the end
of the consumption period); if none matches, fall back to `sorted_rates[0]`. -/
def lookupTimestamped (sorted_rates : List (ℕ × ℚ)) (readAt : ℕ) : Option ℚ :=
  match (sorted_rates.reverse).find? (fun p => decide (p.1 < readAt)) with
  | some p => some p.2
  | none => match sorted_rates with
    | [] => none
    | p :: _ => some p.2

/-- The rate data the calculator prepares before the reading loop: either
extracted time-of-day tier prices or the timestamped `sorted_rates`. -/
inductive RateSource where
  | goRates (night_rate day_rate : ℚ)
  | cosyRates (cosy_rate day_rate peak_rate : ℚ)
  | timestamped (sorted_rates : List (ℕ × ℚ))
deriving DecidableEq

/-- The rate-preparation phase of `_calculate_cost_for_consumption`:
for Go/Cosy, extract the distinct tier prices and fall back to the
timestamped preparation when fewer than the expected tier count (2 for Go,
3 for Cosy) are found; otherwise prepare `sorted_rates`. -/
def prepareRates (unit_rates : List Rate) (dayStart dayEnd : ℕ) (is_go is_cosy : Bool) :
    RateSource :=
  if is_go || is_cosy then
    let vals := rateValues unit_rates
    if is_go then
      if vals.length < 2 then .timestamped (sortedRates unit_rates dayStart dayEnd)
      else .goRates (pyMin vals) (pyMax vals)
    else
      if vals.length < 3 then .timestamped (sortedRates unit_rates dayStart dayEnd)
      else .cosyRates (vals.getD 0 0) (vals.getD 1 0) (vals.getD 2 0)
  else .timestamped (sortedRates unit_rates dayStart dayEnd)

/-- `matching_rate` for one reading. -/
def matchingRate (src : RateSource) (rd : Reading) : Option ℚ :=
  match src with
  | .goRates night_rate day_rate => some (getGoRateForTime rd.readAtLocal day_rate night_rate)
  | .cosyRates cosy_rate day_rate peak_rate =>
      some (getCosyRateForTime rd.readAtLocal day_rate cosy_rate peak_rate)
  | .timestamped sr => lookupTimestamped sr rd.readAt

/-- The body of the reading loop for one reading: parse `consumptionDelta`
(`TypeError`/`ValueError` are caught and give 0; a missing key raises
`KeyError`), skip zero-consumption readings before any rate lookup, and
otherwise contribute `consumption_kwh * matching_rate` (or nothing when no
rate is found). -/
def readingCost (src : RateSource) (rd : Reading) : Except PyError ℚ :=
  match rd.consumptionDelta with
  | none => .error .keyError
  | some d =>
    let consumption_kwh : ℚ := match d with
      | .num q => q / 1000
      | .unparseable => 0
      | .null => 0
    if consumption_kwh = 0 then .ok 0
    else
      match matchingRate src rd with
      | some rate => .ok (consumption_kwh * rate)
      | none => .ok 0

/-- `total_energy_cost` accumulated over the readings in order; the first
`KeyError` aborts, as in Python. -/
def totalEnergyCost (src : RateSource) : List Reading → Except PyError ℚ
  | [] => .ok 0
  | rd :: rest => do
      let c ← readingCost src rd
      let t ← totalEnergyCost src rest
      pure (c + t)

/-- `_calculate_cost_for_consumption`: prepare the rate source, accumulate
the energy cost over the readings, then add the daily standing charge once.
`is_go`/`is_cosy` are the results of the substring tests on the tariff
name; `dayStart`/`dayEnd` are the UTC instants of the analysis day's local
midnight boundaries. -/
def calculateCostForConsumption (consumption_data : List Reading) (unit_rates : List Rate)
    (standing_charge : ℚ) (dayStart dayEnd : ℕ) (is_go is_cosy : Bool) : Except PyError ℚ :=
  (totalEnergyCost (prepareRates unit_rates dayStart dayEnd is_go is_cosy)
      consumption_data).map (fun t => t + standing_charge)

/-! ### Rate timeline normalizer (`_format_rates_for_event`) -/

/-- Python `round(x, n)` modelled as exact banker's rounding at
`scale = 10 ^ n`. -/
def pyRound (x : ℚ) (scale : ℚ) : ℚ :=
  let y := x * scale
  let f : ℤ := ⌊y⌋
  let r : ℚ := y - (f : ℚ)
  let n : ℤ :=
    if r < 1/2 then f else if 1/2 < r then f + 1 else if f % 2 = 0 then f else f + 1
  (n : ℚ) / scale

/-- `is_valid = valid_to is None or valid_to > now`. -/
def isValidNow (now : ℕ) (r : Rate) : Bool :=
  match r.valid_to with | none => true | some vt => decide (now < vt)

/-- The normalizer's filter chain: DIRECT_DEBIT and currently valid; if
empty, any currently valid rate; if still empty, all rates.  (The code also
computes `has_started = valid_from <= now` but never uses it.) -/
def filteredRatesForEvent (unit_rates : List Rate) (now : ℕ) : List Rate :=
  let f1 := unit_rates.filter (fun r => isDD r && isValidNow now r)
  if f1.isEmpty then
    let f2 := unit_rates.filter (fun r => isValidNow now r)
    if f2.isEmpty then unit_rates else f2
  else f1

/-- One output row of the normalizer (`end` is a Lean keyword; the field is
named `stop`).  The price is in major currency units. -/
structure RatePeriod where
  start : ℕ
  stop : ℕ
  value_inc_vat : ℚ
  is_capped : Bool
deriving DecidableEq

/-- The normalizer's per-slot lookup: most recent entry with
`rate_time <= period_start` (non-strict, unlike the cost calculator),
falling back to the first entry. -/
def eventLookup (sorted_rates : List (ℕ × ℚ)) (periodStart : ℕ) : Option ℚ :=
  match (sorted_rates.reverse).find? (fun p => decide (p.1 ≤ periodStart)) with
  | some p => some p.2
  | none => match sorted_rates with
    | [] => none
    | p :: _ => some p.2

/-- The normalizer's while loop over 30-minute steps, modelled as a map
over slot indices `0 .. n-1`: slot `i` starts at `startOfToday + 30 * i`;
a slot is emitted only when a rate is found, exactly as in the code. -/
def eventSlots (sorted_rates : List (ℕ × ℚ)) (startOfToday n : ℕ) : List RatePeriod :=
  (List.range n).filterMap (fun i =>
    let ps := startOfToday + 30 * i
    match eventLookup sorted_rates ps with
    | some v => some ⟨ps, ps + 30, pyRound (v / 100) 1000000, false⟩
    | none => none)

/-- `_format_rates_for_event`.  `startOfToday` is the instant of today's
midnight (the code derives it from `now` by truncating to the date) and a
day is 1440 minutes. -/
def formatRatesForEvent (unit_rates : List Rate) (now startOfToday : ℕ) : List RatePeriod :=
  if unit_rates.isEmpty then [] else
  let sorted_rates := sortByKey (buildRateMap (filteredRatesForEvent unit_rates now))
  let endOfToday := startOfToday + 1440
  let has_tomorrow := sorted_rates.any (fun p => decide (p.1 ≥ endOfToday))
  let endTime := if has_tomorrow then startOfToday + 2880 else endOfToday
  eventSlots sorted_rates startOfToday ((endTime - startOfToday) / 30)

/-! ### Current-rate lookup (`_get_current_rate`) -/

/-- Stable descending sort by `valid_from`
(`current_rates.sort(key=..., reverse=True)`). -/
def sortByValidFromDesc (l : List Rate) : List Rate :=
  List.insertionSort (fun a b => b.valid_from ≤ a.valid_from) l

/-- The fallback branch's sort key
`(payment_method != "DIRECT_DEBIT", -1 if valid_from else 0)`; the second
component is constantly `-1` because `valid_from` is a nonempty ISO string. -/
def fallbackSortKey (r : Rate) : Bool × ℤ := (!(isDD r), -1)

/-- Lexicographic order on Python tuples `(bool, int)`
(`False < True`). -/
abbrev keyLe (p q : Bool × ℤ) : Prop := p.1 < q.1 ∨ (p.1 = q.1 ∧ p.2 ≤ q.2)

/-- Stable descending sort by `fallbackSortKey`
(`valid_rates.sort(key=..., reverse=True)`; CPython's sort is stable and
`reverse=True` preserves the original order of key-equal elements). -/
def currentSortDesc (l : List Rate) : List Rate :=
  List.insertionSort (fun a b => keyLe (fallbackSortKey b) (fallbackSortKey a)) l

/-- `_get_current_rate(unit_rates)` at instant `now`. -/
def getCurrentRate (unit_rates : List Rate) (now : ℕ) : Option ℚ :=
  if unit_rates.isEmpty then none else
  let current_rates := unit_rates.filter
    (fun r => isDD r && r.valid_to.isNone && decide (r.valid_from ≤ now))
  if !current_rates.isEmpty then
    some (pyRound (sortByValidFromDesc current_rates).headI.value_inc_vat 100)
  else
    let valid_rates := unit_rates.filter
      (fun r => decide (r.valid_from ≤ now) && isValidNow now r)
    if !valid_rates.isEmpty then
      some (pyRound (currentSortDesc valid_rates).headI.value_inc_vat 100)
    else none

/-! ### Helper lemmas -/

/-- In a list of pairs whose keys are strictly increasing, every key is at
most the last key. -/
lemma le_getLast_keys :
    ∀ {l : List (ℕ × ℚ)}, l.Pairwise (fun p q => p.1 < q.1) →
      ∀ (hne : l ≠ []), ∀ x ∈ l, x.1 ≤ (l.getLast hne).1
  | [], _, hne => absurd rfl hne
  | [a], _, _ => by simp
  | a :: b :: t, h, _ => by
    intro x hx
    rw [List.getLast_cons (List.cons_ne_nil b t)]
    rcases List.mem_cons.mp hx with rfl | hx
    · have hb : x.1 < ((b :: t).getLast (List.cons_ne_nil b t)).1 :=
        List.rel_of_pairwise_cons h (List.getLast_mem _)
      exact le_of_lt hb
    · exact le_getLast_keys h.of_cons (List.cons_ne_nil b t) x hx

/-! ### Claim C7: the time-of-day membership test -/

/-- C7 counterexample: the claim states that `t == e` always yields false,
but for a band with `s == e` (treated as wrapping) the test at `t = e = s`
returns true: `check_time >= start` holds. -/
theorem claim7_boundary_counterexample : isTimeInPeriod 300 300 300 = true := by decide

/-- C7 (amended): for non-wrapping bands (`s < e`) membership is
`s ≤ t < e`; for wrapping bands (`s ≥ e`) it is `t ≥ s ∨ t < e`;
`t = s` always yields true, and `t = e` yields false provided `s ≠ e`
(when `s = e`, the instant `t = e = s` yields true). -/
theorem claim7_is_within (t s e : ℕ) :
    (s < e → (isTimeInPeriod t s e = true ↔ (s ≤ t ∧ t < e))) ∧
    (e ≤ s → (isTimeInPeriod t s e = true ↔ (s ≤ t ∨ t < e))) ∧
    isTimeInPeriod s s e = true ∧
    (s ≠ e → isTimeInPeriod e s e = false) := by
  simp only [isTimeInPeriod]
  refine ⟨?_, ?_, ?_, ?_⟩
  · intro h; simp [h]
  · intro h; rw [if_neg (by omega)]; simp
  · by_cases hse : s < e
    · rw [if_pos hse]; simp [hse]
    · rw [if_neg hse]; simp
  · intro h
    by_cases hse : s < e
    · rw [if_pos hse]; simp
    · rw [if_neg hse]; simp; omega

/-- C7 witness: the amended characterization evaluated inside the Go night
band and at the band end. -/
theorem claim7_is_within_witness :
    isTimeInPeriod 100 30 330 = true ∧ isTimeInPeriod 330 30 330 = false :=
  ⟨((claim7_is_within 100 30 330).1 (by decide)).mpr (by decide),
   (claim7_is_within 330 30 330).2.2.2 (by decide)⟩

/-! ### Claim C1: timestamped per-reading rate lookup -/

/-- C1: in timestamped mode with a non-empty `sorted_rates` list (strictly
ascending `valid_from` keys), a rate is always found; it is the entry with
the latest `valid_from` strictly earlier than the reading's end timestamp
when one precedes the reading, and the earliest available entry otherwise. -/
theorem claim1_rate_lookup (sr : List (ℕ × ℚ)) (rd : Reading)
    (hne : sr ≠ []) (hsort : sr.Pairwise (fun p q => p.1 < q.1)) :
    ∃ v, matchingRate (RateSource.timestamped sr) rd = some v ∧
      ((∃ p ∈ sr, p.1 < rd.readAt) →
        ∃ p ∈ sr, p.1 < rd.readAt ∧ p.2 = v ∧
          ∀ q ∈ sr, q.1 < rd.readAt → q.1 ≤ p.1) ∧
      ((∀ p ∈ sr, ¬ p.1 < rd.readAt) →
        ∃ p ∈ sr, p.2 = v ∧ ∀ q ∈ sr, p.1 ≤ q.1) := by
  have hfind : sr.reverse.find? (fun p => decide (p.1 < rd.readAt)) =
      (sr.filter (fun p => decide (p.1 < rd.readAt))).getLast? :=
    (List.filter_getLast? _ _).symm
  simp only [matchingRate, lookupTimestamped, hfind]
  cases hgl : (sr.filter (fun p => decide (p.1 < rd.readAt))).getLast? with
  | none =>
    have hfe : sr.filter (fun p => decide (p.1 < rd.readAt)) = [] :=
      List.getLast?_eq_none_iff.mp hgl
    obtain ⟨p, rest, rfl⟩ : ∃ p rest, sr = p :: rest := by
      cases sr with
      | nil => exact absurd rfl hne
      | cons p rest => exact ⟨p, rest, rfl⟩
    refine ⟨p.2, rfl, ?_, ?_⟩
    · rintro ⟨q, hq, hqt⟩
      have : q ∈ List.filter (fun p => decide (p.1 < rd.readAt)) (p :: rest) :=
        List.mem_filter.mpr ⟨hq, by simpa using hqt⟩
      rw [hfe] at this
      exact absurd this (List.not_mem_nil q)
    · intro _
      refine ⟨p, List.mem_cons_self p rest, rfl, ?_⟩
      intro q hq
      rcases List.mem_cons.mp hq with rfl | hq
      · exact le_refl _
      · exact le_of_lt (List.rel_of_pairwise_cons hsort hq)
  | some last =>
    have hfne : sr.filter (fun p => decide (p.1 < rd.readAt)) ≠ [] := by
      intro h; rw [h] at hgl; exact Option.noConfusion hgl
    have hlast : last = (sr.filter (fun p => decide (p.1 < rd.readAt))).getLast hfne := by
      have := List.getLast?_eq_getLast (sr.filter (fun p => decide (p.1 < rd.readAt))) hfne
      rw [hgl] at this
      exact Option.some.inj this
    have hmemf : last ∈ sr.filter (fun p => decide (p.1 < rd.readAt)) := by
      rw [hlast]; exact List.getLast_mem hfne
    have hmem : last ∈ sr := (List.mem_filter.mp hmemf).1
    have hlt : last.1 < rd.readAt := by
      have := (List.mem_filter.mp hmemf).2
      simpa using this
    refine ⟨last.2, rfl, ?_, ?_⟩
    · intro _
      refine ⟨last, hmem, hlt, rfl, ?_⟩
      intro q hq hqt
      have hqf : q ∈ sr.filter (fun p => decide (p.1 < rd.readAt)) :=
        List.mem_filter.mpr ⟨hq, by simpa using hqt⟩
      have := le_getLast_keys (hsort.filter _) hfne q hqf
      rw [← hlast] at this
      exact this
    · intro h
      exact absurd hlt (h last hmem)

/-- C1 witness: a two-entry schedule, a reading strictly after the first
entry; the lookup yields the first entry's price with all side conditions. -/
theorem claim1_rate_lookup_witness :
    ∃ v, matchingRate (RateSource.timestamped [(1, 10), (3, 20)]) ⟨none, 2, 2⟩ = some v ∧
      ((∃ p ∈ [((1:ℕ), (10:ℚ)), (3, 20)], p.1 < 2) →
        ∃ p ∈ [((1:ℕ), (10:ℚ)), (3, 20)], p.1 < 2 ∧ p.2 = v ∧
          ∀ q ∈ [((1:ℕ), (10:ℚ)), (3, 20)], q.1 < 2 → q.1 ≤ p.1) ∧
      ((∀ p ∈ [((1:ℕ), (10:ℚ)), (3, 20)], ¬ p.1 < 2) →
        ∃ p ∈ [((1:ℕ), (10:ℚ)), (3, 20)], p.2 = v ∧
          ∀ q ∈ [((1:ℕ), (10:ℚ)), (3, 20)], p.1 ≤ q.1) :=
  claim1_rate_lookup [(1, 10), (3, 20)] ⟨none, 2, 2⟩ (by decide) (by decide)

/-- `bind` on a successful `Except` computation. -/
lemma except_bind_ok {ε α β : Type} (a : α) (f : α → Except ε β) :
    (Except.ok a >>= f : Except ε β) = f a := rfl

/-- `bind` on a failed `Except` computation. -/
lemma except_bind_error {ε α β : Type} (e : ε) (f : α → Except ε β) :
    ((Except.error e : Except ε α) >>= f) = Except.error e := rfl

/-- `pure` for `Except`. -/
lemma except_pure_eq {ε α : Type} (a : α) : (pure a : Except ε α) = Except.ok a := rfl

/-- `Except.map` on a success. -/
lemma except_map_ok {ε α β : Type} (f : α → β) (a : α) :
    Except.map f (Except.ok a : Except ε α) = Except.ok (f a) := rfl

/-- `Except.map` on a failure. -/
lemma except_map_error {ε α β : Type} (f : α → β) (e : ε) :
    Except.map f (Except.error e : Except ε α) = (Except.error e : Except ε β) := rfl

/-! ### Claims C8, C10: reading parsing and skipping -/

/-- A reading whose `consumptionDelta` key is present and parses to zero
consumption: a numeric 0, an unparseable value (`ValueError`, caught), or a
null (`TypeError`, caught). -/
def parsesToZero (rd : Reading) : Prop :=
  rd.consumptionDelta = some (.num 0) ∨ rd.consumptionDelta = some .unparseable ∨
    rd.consumptionDelta = some .null

lemma readingCost_of_zero (src : RateSource) (rd : Reading) (h : parsesToZero rd) :
    readingCost src rd = .ok 0 := by
  rcases h with h | h | h <;> simp [readingCost, h]

lemma totalEnergyCost_of_zero (src : RateSource) :
    ∀ (readings : List Reading), (∀ rd ∈ readings, parsesToZero rd) →
      totalEnergyCost src readings = .ok 0
  | [], _ => rfl
  | rd :: rest, h => by
    have h1 := readingCost_of_zero src rd (h rd (List.mem_cons_self _ _))
    have h2 := totalEnergyCost_of_zero src rest (fun r hr => h r (List.mem_cons_of_mem _ hr))
    simp [totalEnergyCost, h1, h2, except_bind_ok, except_pure_eq]

/-- C8: readings that parse to zero consumption are skipped entirely: for
any rate list (including the empty one) and any tariff kind, the calculator
returns exactly the standing charge, with no failure. -/
theorem claim8_zero_consumption (readings : List Reading)
    (h0 : ∀ rd ∈ readings, parsesToZero rd) :
    ∀ (unit_rates : List Rate) (standing_charge : ℚ) (dayStart dayEnd : ℕ) (g c : Bool),
      calculateCostForConsumption readings unit_rates standing_charge dayStart dayEnd g c =
        .ok standing_charge := by
  intro unit_rates standing_charge dayStart dayEnd g c
  simp [calculateCostForConsumption, totalEnergyCost_of_zero _ readings h0, except_map_ok]

/-- C8 witness: two zero-parsing readings, an empty rate list, Go mode. -/
theorem claim8_zero_consumption_witness :
    calculateCostForConsumption [⟨some (.num 0), 100, 100⟩, ⟨some .null, 130, 130⟩]
        [] 45 0 1440 true false = .ok 45 :=
  claim8_zero_consumption _ (by simp [parsesToZero]) [] 45 0 1440 true false

/-- C10: a null or unparseable `consumptionDelta` value is treated as zero
and skipped (no error, no cost), but a reading lacking the key entirely
raises `KeyError` out of the calculator. -/
theorem claim10_delta_parsing (t loc : ℕ) (unit_rates : List Rate) (standing_charge : ℚ)
    (dayStart dayEnd : ℕ) (g c : Bool) (rd : Reading) (rest : List Reading)
    (hmiss : rd.consumptionDelta = none) :
    calculateCostForConsumption [⟨some .null, t, loc⟩, ⟨some .unparseable, t, loc⟩]
        unit_rates standing_charge dayStart dayEnd g c = .ok standing_charge ∧
    calculateCostForConsumption (rd :: rest) unit_rates standing_charge dayStart dayEnd g c =
      .error .keyError := by
  constructor
  · have hz := totalEnergyCost_of_zero (prepareRates unit_rates dayStart dayEnd g c)
      [⟨some .null, t, loc⟩, ⟨some .unparseable, t, loc⟩] (by simp [parsesToZero])
    simp [calculateCostForConsumption, hz, except_map_ok]
  · simp [calculateCostForConsumption, totalEnergyCost, readingCost, hmiss,
      except_bind_error, except_map_error]

/-- C10 witness: concrete instantiation with a key-lacking reading. -/
theorem claim10_delta_parsing_witness :
    calculateCostForConsumption [⟨some .null, 100, 100⟩, ⟨some .unparseable, 100, 100⟩]
        [] 45 0 1440 false false = .ok 45 ∧
    calculateCostForConsumption [(⟨none, 0, 0⟩ : Reading)] [] 45 0 1440 false false =
      .error .keyError :=
  claim10_delta_parsing 100 100 [] 45 0 1440 false false ⟨none, 0, 0⟩ [] rfl

/-! ### Claim C5: tier-cardinality fallback for banded plans -/

lemma totalEnergyCost_isOk (src : RateSource) :
    ∀ (readings : List Reading), (∀ rd ∈ readings, rd.consumptionDelta ≠ none) →
      ∃ q, totalEnergyCost src readings = .ok q
  | [], _ => ⟨0, rfl⟩
  | rd :: rest, hk => by
    obtain ⟨q, hq⟩ := totalEnergyCost_isOk src rest (fun r hr => hk r (List.mem_cons_of_mem _ hr))
    have h1 : ∃ x, readingCost src rd = .ok x := by
      cases hd : rd.consumptionDelta with
      | none => exact absurd hd (hk rd (List.mem_cons_self _ _))
      | some d =>
        cases d with
        | num v =>
          by_cases hz : (v / 1000 : ℚ) = 0
          · exact ⟨0, by simp [readingCost, hd, hz]⟩
          · cases hm : matchingRate src rd with
            | none => exact ⟨0, by simp [readingCost, hd, hz, hm]⟩
            | some rate => exact ⟨v / 1000 * rate, by simp [readingCost, hd, hz, hm]⟩
        | unparseable => exact ⟨0, by simp [readingCost, hd]⟩
        | null => exact ⟨0, by simp [readingCost, hd]⟩
    obtain ⟨x, hx⟩ := h1
    exact ⟨x + q, by simp [totalEnergyCost, hx, hq, except_bind_ok, except_pure_eq]⟩

/-- C5: when a Go plan finds fewer than 2 distinct unit prices (or a Cosy
plan fewer than 3) among the direct-debit rates (falling back to all rates),
the calculator does not abort: it computes exactly the timestamped-mode
result, and returns a total for any readings whose delta key is present. -/
theorem claim5_tier_fallback (unit_rates : List Rate) (readings : List Reading)
    (standing_charge : ℚ) (dayStart dayEnd : ℕ) (g c : Bool)
    (hcard : (g = true ∧ (rateValues unit_rates).length < 2) ∨
      (g = false ∧ c = true ∧ (rateValues unit_rates).length < 3))
    (hk : ∀ rd ∈ readings, rd.consumptionDelta ≠ none) :
    calculateCostForConsumption readings unit_rates standing_charge dayStart dayEnd g c =
      calculateCostForConsumption readings unit_rates standing_charge dayStart dayEnd
        false false ∧
    ∃ q, calculateCostForConsumption readings unit_rates standing_charge dayStart dayEnd g c =
      .ok q := by
  have hprep : prepareRates unit_rates dayStart dayEnd g c =
      prepareRates unit_rates dayStart dayEnd false false := by
    rcases hcard with ⟨rfl, hlen⟩ | ⟨rfl, rfl, hlen⟩ <;> simp [prepareRates, hlen]
  refine ⟨by simp [calculateCostForConsumption, hprep], ?_⟩
  obtain ⟨q, hq⟩ := totalEnergyCost_isOk (prepareRates unit_rates dayStart dayEnd g c)
    readings hk
  exact ⟨q + standing_charge, by simp [calculateCostForConsumption, hq, except_map_ok]⟩

/-- C5 witness: a Go plan whose rate list carries a single distinct price,
with one nonzero reading; the banded branch falls back to the timestamped
result and still yields a total. -/
theorem claim5_tier_fallback_witness :
    calculateCostForConsumption [⟨some (.num 500), 30, 30⟩]
        [⟨0, none, some "DIRECT_DEBIT", 20⟩] 45 0 1440 true false =
      calculateCostForConsumption [⟨some (.num 500), 30, 30⟩]
        [⟨0, none, some "DIRECT_DEBIT", 20⟩] 45 0 1440 false false ∧
    ∃ q, calculateCostForConsumption [⟨some (.num 500), 30, 30⟩]
        [⟨0, none, some "DIRECT_DEBIT", 20⟩] 45 0 1440 true false = .ok q :=
  claim5_tier_fallback [⟨0, none, some "DIRECT_DEBIT", 20⟩] [⟨some (.num 500), 30, 30⟩]
    45 0 1440 true false
    (Or.inl ⟨rfl, by norm_num [rateValues, sortedDedup, ddOrAll, isDD]⟩)
    (by simp)

/-! ### Claim C9: flat-rate exactness -/

lemma lookupTimestamped_single (k : ℕ) (p : ℚ) (t : ℕ) :
    lookupTimestamped [(k, p)] t = some p := by
  by_cases h : k < t <;>
    simp [lookupTimestamped, List.find?, h]

lemma applicableRates_single (r : Rate) (dayStart dayEnd : ℕ)
    (h1 : r.valid_from < dayEnd) (hvt : r.valid_to = none) :
    applicableRates [r] dayStart dayEnd = [r] := by
  cases hdd : isDD r <;>
    simp [applicableRates, activeFilter, hdd, hvt, h1]

lemma sortedRates_single (r : Rate) (dayStart dayEnd : ℕ)
    (h1 : r.valid_from < dayEnd) (hvt : r.valid_to = none) :
    sortedRates [r] dayStart dayEnd = [(r.valid_from, r.value_inc_vat)] := by
  rw [sortedRates, applicableRates_single r dayStart dayEnd h1 hvt]
  simp [buildRateMap, insertRateEntry, setAssoc, sortByKey]

lemma totalEnergyCost_const (src : RateSource) (x : ℚ) :
    ∀ (readings : List Reading), (∀ rd ∈ readings, readingCost src rd = .ok x) →
      totalEnergyCost src readings = .ok ((readings.length : ℚ) * x)
  | [], _ => by simp [totalEnergyCost]
  | rd :: rest, h => by
    have h1 := h rd (List.mem_cons_self _ _)
    have h2 := totalEnergyCost_const src x rest (fun r hr => h r (List.mem_cons_of_mem _ hr))
    simp only [totalEnergyCost, h1, h2, List.length_cons, except_bind_ok, except_pure_eq]
    congr 1
    push_cast
    ring

/-- C9: for a flat-rate plan given as a single open-ended interval that
starts at or before the analysis day, the total is exactly
`N * (D / 1000) * price + standing_charge`; the standing charge is added
once, with no intermediate rounding (the arithmetic is exact). -/
theorem claim9_flat_rate (r : Rate) (standing_charge D : ℚ) (dayStart dayEnd : ℕ)
    (readings : List Reading)
    (hvf : r.valid_from ≤ dayStart) (hvt : r.valid_to = none) (hday : dayStart < dayEnd)
    (hreads : ∀ rd ∈ readings, rd.consumptionDelta = some (.num D)) :
    calculateCostForConsumption readings [r] standing_charge dayStart dayEnd false false =
      .ok ((readings.length : ℚ) * (D / 1000) * r.value_inc_vat + standing_charge) := by
  have h1 : r.valid_from < dayEnd := lt_of_le_of_lt hvf hday
  have hsrc : prepareRates [r] dayStart dayEnd false false =
      .timestamped [(r.valid_from, r.value_inc_vat)] := by
    simp [prepareRates, sortedRates_single r dayStart dayEnd h1 hvt]
  have hrc : ∀ rd ∈ readings,
      readingCost (.timestamped [(r.valid_from, r.value_inc_vat)]) rd =
        .ok (D / 1000 * r.value_inc_vat) := by
    intro rd hrd
    have hd := hreads rd hrd
    by_cases hz : (D / 1000 : ℚ) = 0
    · simp [readingCost, hd, hz]
    · simp [readingCost, hd, hz, matchingRate, lookupTimestamped_single]
  rw [calculateCostForConsumption, hsrc, totalEnergyCost_const _ _ readings hrc]
  simp only [except_map_ok]
  congr 1
  ring

/-- C9 witness: one 500 Wh reading on a 20 p/kWh open-ended rate with a
45 p standing charge gives exactly 55 p. -/
theorem claim9_flat_rate_witness :
    calculateCostForConsumption [⟨some (.num 500), 30, 30⟩]
        [⟨0, none, some "DIRECT_DEBIT", 20⟩] 45 0 1440 false false = .ok 55 := by
  have h := claim9_flat_rate ⟨0, none, some "DIRECT_DEBIT", 20⟩ 45 500 0 1440
    [⟨some (.num 500), 30, 30⟩] (by decide) rfl (by decide) (by simp)
  rw [h]
  norm_num

/-! ### Claim C2: two-tier price-rank assignment -/

lemma sortedDedup_sorted (l : List ℚ) : (sortedDedup l).Sorted (· ≤ ·) :=
  List.sorted_insertionSort _ _

lemma sortedDedup_nodup (l : List ℚ) : (sortedDedup l).Nodup :=
  ((List.perm_insertionSort _ _).nodup_iff).mpr l.nodup_dedup

lemma mem_sortedDedup {l : List ℚ} {x : ℚ} : x ∈ sortedDedup l ↔ x ∈ l := by
  rw [sortedDedup, List.mem_insertionSort, List.mem_dedup]

lemma sortedDedup_perm_eq {l l' : List ℚ} (h : l.Perm l') : sortedDedup l = sortedDedup l' :=
  List.eq_of_perm_of_sorted
    ((List.perm_insertionSort _ _).trans (h.dedup.trans (List.perm_insertionSort _ _).symm))
    (sortedDedup_sorted l) (sortedDedup_sorted l')

/-- When a list's elements take exactly the two values `a < b` (both
present), its sorted deduplication is `[a, b]`. -/
lemma sortedDedup_pair {l : List ℚ} {a b : ℚ} (hab : a < b)
    (hmem : ∀ x ∈ l, x = a ∨ x = b) (ha : a ∈ l) (hb : b ∈ l) :
    sortedDedup l = [a, b] := by
  have hnodup := sortedDedup_nodup l
  have hsorted := sortedDedup_sorted l
  have hfin : (sortedDedup l).toFinset = {a, b} := by
    ext x
    simp only [List.mem_toFinset, mem_sortedDedup, Finset.mem_insert, Finset.mem_singleton]
    constructor
    · exact hmem x
    · rintro (rfl | rfl)
      · exact ha
      · exact hb
  have hlen : (sortedDedup l).length = 2 := by
    rw [← List.toFinset_card_of_nodup hnodup, hfin, Finset.card_pair hab.ne]
  obtain ⟨x, y, hxy⟩ := List.length_eq_two.mp hlen
  rw [hxy] at hnodup hsorted hfin ⊢
  have hxley : x ≤ y := (List.sorted_cons.mp hsorted).1 y (by simp)
  have hamem : a = x ∨ a = y := by
    have : a ∈ [x, y] := by
      rw [← List.mem_toFinset, hfin]
      simp
    simpa using this
  have hbmem : b = x ∨ b = y := by
    have : b ∈ [x, y] := by
      rw [← List.mem_toFinset, hfin]
      simp
    simpa using this
  rcases hamem with rfl | rfl
  · rcases hbmem with rfl | rfl
    · exact absurd hab (lt_irrefl _)
    · rfl
  · rcases hbmem with rfl | rfl
    · exact absurd hxley (not_le.mpr hab)
    · exact absurd hab (lt_irrefl _)

lemma ddOrAll_perm {l l' : List Rate} (h : l.Perm l') : (ddOrAll l).Perm (ddOrAll l') := by
  unfold ddOrAll
  have hf : (l.filter (fun r => isDD r)).Perm (l'.filter (fun r => isDD r)) := h.filter _
  by_cases he : l.filter (fun r => isDD r) = []
  · have he' : l'.filter (fun r => isDD r) = [] := by
      rw [he] at hf
      exact hf.symm.eq_nil
    simp only [he, he', List.isEmpty_nil, if_pos]
    exact h
  · have he' : l'.filter (fun r => isDD r) ≠ [] := by
      intro hc
      rw [hc] at hf
      exact he hf.eq_nil
    rw [if_neg (by simpa using he), if_neg (by simpa using he')]
    exact hf

lemma rateValues_perm_eq {l l' : List Rate} (h : l.Perm l') : rateValues l = rateValues l' :=
  sortedDedup_perm_eq ((ddOrAll_perm h).map _)

lemma rateValues_pair {l : List Rate} {a b : ℚ} (hab : a < b)
    (hmem : ∀ r ∈ ddOrAll l, r.value_inc_vat = a ∨ r.value_inc_vat = b)
    (ha : ∃ r ∈ ddOrAll l, r.value_inc_vat = a)
    (hb : ∃ r ∈ ddOrAll l, r.value_inc_vat = b) :
    rateValues l = [a, b] := by
  apply sortedDedup_pair hab
  · intro x hx
    obtain ⟨r, hr, rfl⟩ := List.mem_map.mp hx
    exact hmem r hr
  · obtain ⟨r, hr, hv⟩ := ha
    exact List.mem_map.mpr ⟨r, hr, hv⟩
  · obtain ⟨r, hr, hv⟩ := hb
    exact List.mem_map.mpr ⟨r, hr, hv⟩

/-- C2: for a Go (two-tier) plan whose direct-debit rate set (falling back
to all rates) carries exactly the two distinct prices `a ≠ b`, every
reading inside the night band is charged `min a b` and every reading
outside it `max a b`, and the assignment is invariant under any reordering
of the input rate list. -/
theorem claim2_go_two_tier (l l' : List Rate) (dayStart dayEnd : ℕ) (is_cosy : Bool)
    (a b : ℚ) (hab : a ≠ b) (hperm : l.Perm l')
    (hmem : ∀ r ∈ ddOrAll l, r.value_inc_vat = a ∨ r.value_inc_vat = b)
    (ha : ∃ r ∈ ddOrAll l, r.value_inc_vat = a)
    (hb : ∃ r ∈ ddOrAll l, r.value_inc_vat = b) :
    ∀ rd : Reading,
      matchingRate (prepareRates l dayStart dayEnd true is_cosy) rd =
        some (if isTimeInPeriod rd.readAtLocal GO_NIGHT_START GO_NIGHT_END
              then min a b else max a b) ∧
      matchingRate (prepareRates l' dayStart dayEnd true is_cosy) rd =
        matchingRate (prepareRates l dayStart dayEnd true is_cosy) rd := by
  have hvals : rateValues l = [min a b, max a b] := by
    rcases lt_or_gt_of_ne hab with h | h
    · rw [min_eq_left h.le, max_eq_right h.le]
      exact rateValues_pair h hmem ha hb
    · rw [min_eq_right h.le, max_eq_left h.le]
      exact rateValues_pair h (fun r hr => (hmem r hr).symm) hb ha
  have hvals' : rateValues l' = [min a b, max a b] := by
    rw [← rateValues_perm_eq hperm]
    exact hvals
  have hprep : prepareRates l dayStart dayEnd true is_cosy =
      .goRates (min a b) (max a b) := by
    simp [prepareRates, hvals, pyMin, pyMax, min_eq_left min_le_max, max_eq_right min_le_max]
  have hprep' : prepareRates l' dayStart dayEnd true is_cosy =
      .goRates (min a b) (max a b) := by
    simp [prepareRates, hvals', pyMin, pyMax, min_eq_left min_le_max, max_eq_right min_le_max]
  intro rd
  rw [hprep, hprep']
  exact ⟨by simp [matchingRate, getGoRateForTime], rfl⟩

/-- C2 witness: rates {30, 10} in descending arrival order and its swap; a
03:00 reading gets 10 (the minimum), with order-invariance. -/
theorem claim2_go_two_tier_witness :
    matchingRate (prepareRates [⟨0, none, none, 30⟩, ⟨0, none, none, 10⟩] 0 1440 true false)
        ⟨some (.num 500), 180, 180⟩ =
      some (if isTimeInPeriod 180 GO_NIGHT_START GO_NIGHT_END
            then min (30:ℚ) 10 else max 30 10) ∧
    matchingRate (prepareRates [⟨0, none, none, 10⟩, ⟨0, none, none, 30⟩] 0 1440 true false)
        ⟨some (.num 500), 180, 180⟩ =
      matchingRate (prepareRates [⟨0, none, none, 30⟩, ⟨0, none, none, 10⟩] 0 1440 true false)
        ⟨some (.num 500), 180, 180⟩ :=
  claim2_go_two_tier [⟨0, none, none, 30⟩, ⟨0, none, none, 10⟩]
    [⟨0, none, none, 10⟩, ⟨0, none, none, 30⟩] 0 1440 false 30 10
    (by norm_num) (List.Perm.swap _ _ _)
    (by simp [ddOrAll, isDD])
    (by simp [ddOrAll, isDD])
    (by simp [ddOrAll, isDD])
    ⟨some (.num 500), 180, 180⟩

/-! ### Claim C3: timestamped-mode rate filtering and dedup -/

/-- Modelled from the spec (claim C3's wording, for comparison with
`applicableRates`): the fallback is claimed to keep the same two-sided
activity condition — `valid_from` before day-end AND `valid_to` null or
after day-start — dropping only the payment-method restriction. -/
def applicableRatesClaim (unit_rates : List Rate) (dayStart dayEnd : ℕ) : List Rate :=
  let primary := unit_rates.filter (activeFilter dayStart dayEnd)
  if primary.isEmpty then
    unit_rates.filter (fun r => decide (r.valid_from < dayEnd) &&
      (match r.valid_to with | none => true | some vt => decide (dayStart < vt)))
  else primary

/-- C3 counterexample: a single non-direct-debit rate that expired before
the analysis day (`valid_to = 5 ≤ dayStart = 10`).  The claim's two-sided
fallback would discard it, but the code's fallback checks only
`valid_from < dayEnd` and keeps it. -/
theorem claim3_fallback_counterexample :
    applicableRates [⟨0, some 5, none, 10⟩] 10 20 = [⟨0, some 5, none, 10⟩] ∧
    applicableRatesClaim [⟨0, some 5, none, 10⟩] 10 20 = [] := by
  constructor <;> rfl

lemma lookup_setAssoc (m : List (ℕ × ℚ)) (k : ℕ) (v : ℚ) (j : ℕ) :
    (setAssoc m k v).lookup j = if j = k then some v else m.lookup j := by
  induction m with
  | nil =>
    by_cases h : j = k
    · simp [setAssoc, List.lookup, h]
    · have hb : (j == k) = false := by simp [h]
      simp [setAssoc, List.lookup, h, hb]
  | cons p rest ih =>
    by_cases hpk : p.1 = k
    · by_cases hjk : j = k
      · simp [setAssoc, hpk, List.lookup, hjk]
      · have hb : (j == k) = false := by simp [hjk]
        simp [setAssoc, hpk, List.lookup, hjk, hb]
    · by_cases hjp : j = p.1
      · have hjk : j ≠ k := fun h => hpk (hjp ▸ h)
        simp [setAssoc, hpk, List.lookup, hjp, hjk]
      · have hb : (j == p.1) = false := by simp [hjp]
        simp [setAssoc, hpk, List.lookup, hjp, hb, ih]

lemma buildRateMap_concat (rs : List Rate) (x : Rate) :
    buildRateMap (rs ++ [x]) = insertRateEntry (buildRateMap rs) x := by
  simp [buildRateMap, List.foldl_append]

/-- On duplicate `valid_from` keys, a direct-debit entry wins: whenever some
direct-debit rate in the list carries key `k`, the built `rate_map` holds
the price of a direct-debit rate with key `k`. -/
lemma lookup_buildRateMap_dd (k : ℕ) :
    ∀ (rs : List Rate), (∃ r ∈ rs, r.valid_from = k ∧ isDD r = true) →
      ∃ r ∈ rs, r.valid_from = k ∧ isDD r = true ∧
        (buildRateMap rs).lookup k = some r.value_inc_vat := by
  intro rs
  induction rs using List.reverseRecOn with
  | nil =>
    rintro ⟨r, hr, _⟩
    exact absurd hr (List.not_mem_nil r)
  | append_singleton rs x ih =>
    rintro ⟨r, hr, hrk, hrdd⟩
    rw [buildRateMap_concat]
    by_cases hx : x.valid_from = k ∧ isDD x = true
    · refine ⟨x, List.mem_append_right _ (List.mem_singleton_self x), hx.1, hx.2, ?_⟩
      rw [insertRateEntry, if_pos (by simp [hx.2]), lookup_setAssoc, if_pos hx.1.symm]
    · have hrs : r ∈ rs := by
        rcases List.mem_append.mp hr with h | h
        · exact h
        · rw [List.mem_singleton] at h
          subst h
          exact absurd ⟨hrk, hrdd⟩ hx
      obtain ⟨r', hr', hk', hdd', hl'⟩ := ih ⟨r, hrs, hrk, hrdd⟩
      refine ⟨r', List.mem_append_left _ hr', hk', hdd', ?_⟩
      rw [insertRateEntry]
      by_cases hcond : (((buildRateMap rs).lookup x.valid_from).isNone || isDD x) = true
      · rw [if_pos hcond, lookup_setAssoc]
        by_cases hkx : k = x.valid_from
        · exfalso
          rw [← hkx, hl'] at hcond
          simp only [Option.isNone_some, Bool.false_or] at hcond
          exact hx ⟨hkx.symm, hcond⟩
        · rw [if_neg hkx]
          exact hl'
      · rw [if_neg hcond]
        exact hl'

/-- C3 (amended): the primary filter is exactly as claimed (direct-debit,
started before day-end, not ended by day-start); when it matches nothing,
the fallback keeps every rate with `valid_from` before day-end — one-sided,
without re-checking `valid_to`; and on duplicate `valid_from` keys a
direct-debit entry wins in the resulting lookup. -/
theorem claim3_day_filter (l : List Rate) (dayStart dayEnd : ℕ) :
    (∀ r : Rate, activeFilter dayStart dayEnd r = true ↔
      (isDD r = true ∧ r.valid_from < dayEnd ∧ ∀ vt ∈ r.valid_to, dayStart < vt)) ∧
    ((∃ r ∈ l, activeFilter dayStart dayEnd r = true) →
      applicableRates l dayStart dayEnd = l.filter (activeFilter dayStart dayEnd)) ∧
    ((∀ r ∈ l, ¬ activeFilter dayStart dayEnd r = true) →
      ∀ r : Rate, r ∈ applicableRates l dayStart dayEnd ↔
        (r ∈ l ∧ r.valid_from < dayEnd)) ∧
    (∀ k : ℕ, (∃ r ∈ applicableRates l dayStart dayEnd, r.valid_from = k ∧ isDD r = true) →
      ∃ r ∈ applicableRates l dayStart dayEnd, r.valid_from = k ∧ isDD r = true ∧
        (buildRateMap (applicableRates l dayStart dayEnd)).lookup k =
          some r.value_inc_vat) := by
  refine ⟨?_, ?_, ?_, ?_⟩
  · intro r
    cases hvt : r.valid_to <;> simp [activeFilter, hvt, and_assoc]
  · intro hex
    have hne : l.filter (activeFilter dayStart dayEnd) ≠ [] := by
      rw [ne_eq, List.filter_eq_nil_iff]
      push_neg
      obtain ⟨r, hr, hh⟩ := hex
      exact ⟨r, hr, by simp [hh]⟩
    rw [applicableRates, if_neg (by simpa using hne)]
  · intro hall r
    have hnil : l.filter (activeFilter dayStart dayEnd) = [] := by
      rw [List.filter_eq_nil_iff]
      intro a ha
      simpa using hall a ha
    rw [applicableRates, hnil]
    simp
  · intro k
    exact lookup_buildRateMap_dd k (applicableRates l dayStart dayEnd)

/-- C3 witness: a direct-debit rate and a duplicate-key non-direct-debit
rate; the primary filter keeps both conditions and the dedup prefers the
direct-debit price. -/
theorem claim3_day_filter_witness :
    (activeFilter 0 1440 ⟨0, none, some "DIRECT_DEBIT", 10⟩ = true ↔
      (isDD ⟨0, none, some "DIRECT_DEBIT", 10⟩ = true ∧ (0:ℕ) < 1440 ∧
        ∀ vt ∈ (none : Option ℕ), (0:ℕ) < vt)) ∧
    applicableRates [⟨0, none, some "DIRECT_DEBIT", 10⟩, ⟨0, none, none, 99⟩] 0 1440 =
      List.filter (activeFilter 0 1440)
        [⟨0, none, some "DIRECT_DEBIT", 10⟩, ⟨0, none, none, 99⟩] ∧
    (∃ r ∈ applicableRates [⟨0, none, some "DIRECT_DEBIT", 10⟩, ⟨0, none, none, 99⟩] 0 1440,
      r.valid_from = 0 ∧ isDD r = true ∧
        (buildRateMap (applicableRates
            [⟨0, none, some "DIRECT_DEBIT", 10⟩, ⟨0, none, none, 99⟩] 0 1440)).lookup 0 =
          some r.value_inc_vat) := by
  have h := claim3_day_filter [⟨0, none, some "DIRECT_DEBIT", 10⟩, ⟨0, none, none, 99⟩] 0 1440
  refine ⟨h.1 _, h.2.1 ⟨⟨0, none, some "DIRECT_DEBIT", 10⟩, by simp, by decide⟩, ?_⟩
  exact h.2.2.2 0 ⟨⟨0, none, some "DIRECT_DEBIT", 10⟩, by decide, rfl, by decide⟩

/-! ### Claim C4: the normalizer's slot structure -/

instance : Inhabited RatePeriod := ⟨⟨0, 0, 0, false⟩⟩

lemma filterMap_eq_map_of_isSome {α β : Type} [Inhabited β] {f : α → Option β} :
    ∀ {l : List α}, (∀ a ∈ l, (f a).isSome = true) →
      l.filterMap f = l.map (fun a => (f a).iget)
  | [], _ => rfl
  | x :: xs, h => by
    have hx := h x (List.mem_cons_self _ _)
    obtain ⟨b, hb⟩ := Option.isSome_iff_exists.mp hx
    rw [List.filterMap_cons, List.map_cons, hb]
    simp only [Option.iget_some, hb]
    rw [filterMap_eq_map_of_isSome (fun a ha => h a (List.mem_cons_of_mem _ ha))]

lemma setAssoc_ne_nil (m : List (ℕ × ℚ)) (k : ℕ) (v : ℚ) : setAssoc m k v ≠ [] := by
  cases m with
  | nil => simp [setAssoc]
  | cons p rest =>
    simp only [setAssoc]
    split <;> simp

lemma insertRateEntry_ne_nil (m : List (ℕ × ℚ)) (r : Rate) (hm : m ≠ []) :
    insertRateEntry m r ≠ [] := by
  rw [insertRateEntry]
  split
  · exact setAssoc_ne_nil _ _ _
  · exact hm

lemma foldl_insertRateEntry_ne_nil :
    ∀ (rs : List Rate) (m : List (ℕ × ℚ)), m ≠ [] → rs.foldl insertRateEntry m ≠ []
  | [], _, hm => hm
  | x :: xs, m, hm => foldl_insertRateEntry_ne_nil xs _ (insertRateEntry_ne_nil m x hm)

lemma buildRateMap_ne_nil (rs : List Rate) (h : rs ≠ []) : buildRateMap rs ≠ [] := by
  cases rs with
  | nil => exact absurd rfl h
  | cons x xs =>
    rw [buildRateMap, List.foldl_cons]
    apply foldl_insertRateEntry_ne_nil
    have hx : insertRateEntry [] x = [(x.valid_from, x.value_inc_vat)] := by
      simp [insertRateEntry, setAssoc, List.lookup]
    rw [hx]
    simp

lemma filteredRatesForEvent_ne_nil (l : List Rate) (now : ℕ) (h : l ≠ []) :
    filteredRatesForEvent l now ≠ [] := by
  simp only [filteredRatesForEvent]
  split
  · split
    · exact h
    · next hins => simpa using hins
  · next hout => simpa using hout

lemma sortByKey_ne_nil (m : List (ℕ × ℚ)) (h : m ≠ []) : sortByKey m ≠ [] := by
  intro hc
  have hp := List.perm_insertionSort (fun a b : ℕ × ℚ => a.1 ≤ b.1) m
  rw [sortByKey] at hc
  rw [hc] at hp
  exact h hp.symm.eq_nil

lemma eventLookup_isSome (sr : List (ℕ × ℚ)) (hsr : sr ≠ []) (ps : ℕ) :
    (eventLookup sr ps).isSome = true := by
  simp only [eventLookup]
  cases hf : sr.reverse.find? (fun p => decide (p.1 ≤ ps)) with
  | some p => rfl
  | none =>
    clear hf
    cases sr with
    | nil => exact absurd rfl hsr
    | cons p rest => rfl

/-- The slot loop over a non-empty lookup table emits exactly `n`
consecutive 30-minute periods starting at `startOfToday`. -/
lemma eventSlots_shape (sr : List (ℕ × ℚ)) (hsr : sr ≠ []) (s0 n : ℕ) :
    (eventSlots sr s0 n).length = n ∧
    ∀ i, i < n → ∃ p : RatePeriod, (eventSlots sr s0 n)[i]? = some p ∧
      p.start = s0 + 30 * i ∧ p.stop = s0 + 30 * i + 30 := by
  have hsome : ∀ i ∈ List.range n,
      ((fun i => match eventLookup sr (s0 + 30 * i) with
        | some v => some (⟨s0 + 30 * i, s0 + 30 * i + 30, pyRound (v / 100) 1000000, false⟩ :
            RatePeriod)
        | none => none) i).isSome = true := by
    intro i _
    obtain ⟨v, hv⟩ := Option.isSome_iff_exists.mp (eventLookup_isSome sr hsr (s0 + 30 * i))
    simp [hv]
  have heq : eventSlots sr s0 n = (List.range n).map (fun i =>
      ((fun i => match eventLookup sr (s0 + 30 * i) with
        | some v => some (⟨s0 + 30 * i, s0 + 30 * i + 30, pyRound (v / 100) 1000000, false⟩ :
            RatePeriod)
        | none => none) i).iget) := by
    rw [eventSlots]
    exact filterMap_eq_map_of_isSome hsome
  constructor
  · rw [heq]
    simp
  · intro i hi
    obtain ⟨v, hv⟩ := Option.isSome_iff_exists.mp (eventLookup_isSome sr hsr (s0 + 30 * i))
    refine ⟨⟨s0 + 30 * i, s0 + 30 * i + 30, pyRound (v / 100) 1000000, false⟩, ?_, rfl, rfl⟩
    rw [heq, List.getElem?_map, List.getElem?_range hi]
    simp [hv]

/-- C4 counterexample: two rates, the second starting after the next-day
boundary but not direct-debit-tagged.  The filter chain keeps only the
first, so the output covers one day (48 slots) although an interval of the
input list starts on or after the boundary — falsifying the claimed
"extended iff at least one interval starts on or after the boundary". -/
theorem claim4_extension_counterexample :
    (formatRatesForEvent [⟨0, none, some "DIRECT_DEBIT", 10⟩, ⟨1500, none, none, 20⟩]
        0 0).length = 48 ∧
    [⟨0, none, some "DIRECT_DEBIT", 10⟩, (⟨1500, none, none, 20⟩ : Rate)].any
      (fun r => decide (r.valid_from ≥ 0 + 1440)) = true := by
  constructor
  · decide
  · decide

/-- C4 (amended): for a non-empty rate list the normalizer's output is an
ascending gapless sequence of consecutive 30-minute slots starting at
today's midnight; it covers two days (96 slots) when some entry of the
filtered and deduplicated lookup table starts on or after the next-day
boundary, and one day (48 slots) otherwise; length times 30 minutes equals
the covered span. -/
theorem claim4_normalizer (l : List Rate) (now startOfToday : ℕ) (hne : l ≠ []) :
    (formatRatesForEvent l now startOfToday).length =
      (if (sortByKey (buildRateMap (filteredRatesForEvent l now))).any
          (fun p => decide (p.1 ≥ startOfToday + 1440)) then 96 else 48) ∧
    ∀ i, i < (formatRatesForEvent l now startOfToday).length →
      ∃ p : RatePeriod, (formatRatesForEvent l now startOfToday)[i]? = some p ∧
        p.start = startOfToday + 30 * i ∧ p.stop = startOfToday + 30 * i + 30 := by
  have hne' : l.isEmpty = false := by
    cases l with
    | nil => exact absurd rfl hne
    | cons x xs => rfl
  have hsrne : sortByKey (buildRateMap (filteredRatesForEvent l now)) ≠ [] :=
    sortByKey_ne_nil _ (buildRateMap_ne_nil _ (filteredRatesForEvent_ne_nil l now hne))
  have hform : formatRatesForEvent l now startOfToday =
      eventSlots (sortByKey (buildRateMap (filteredRatesForEvent l now))) startOfToday
        (((if (sortByKey (buildRateMap (filteredRatesForEvent l now))).any
            (fun p => decide (p.1 ≥ startOfToday + 1440)) then startOfToday + 2880
          else startOfToday + 1440) - startOfToday) / 30) := by
    rw [formatRatesForEvent, hne']
    rfl
  have hnum : (((if (sortByKey (buildRateMap (filteredRatesForEvent l now))).any
      (fun p => decide (p.1 ≥ startOfToday + 1440)) then startOfToday + 2880
      else startOfToday + 1440) - startOfToday) / 30) =
      (if (sortByKey (buildRateMap (filteredRatesForEvent l now))).any
        (fun p => decide (p.1 ≥ startOfToday + 1440)) then 96 else 48) := by
    split <;> omega
  rw [hform, hnum]
  obtain ⟨hlen, hsl⟩ := eventSlots_shape
    (sortByKey (buildRateMap (filteredRatesForEvent l now))) hsrne startOfToday
    (if (sortByKey (buildRateMap (filteredRatesForEvent l now))).any
      (fun p => decide (p.1 ≥ startOfToday + 1440)) then 96 else 48)
  refine ⟨hlen, ?_⟩
  intro i hi
  rw [hlen] at hi
  exact hsl i hi

/-- C4 witness: a single open-ended rate starting at midnight yields
exactly 48 slots, the first covering minutes 0 to 30. -/
theorem claim4_normalizer_witness :
    (formatRatesForEvent [⟨0, none, some "DIRECT_DEBIT", 10⟩] 0 0).length =
      (if (sortByKey (buildRateMap
          (filteredRatesForEvent [⟨0, none, some "DIRECT_DEBIT", 10⟩] 0))).any
          (fun p => decide (p.1 ≥ 0 + 1440)) then 96 else 48) ∧
    ∀ i, i < (formatRatesForEvent [⟨0, none, some "DIRECT_DEBIT", 10⟩] 0 0).length →
      ∃ p : RatePeriod, (formatRatesForEvent [⟨0, none, some "DIRECT_DEBIT", 10⟩] 0 0)[i]? =
          some p ∧ p.start = 0 + 30 * i ∧ p.stop = 0 + 30 * i + 30 :=
  claim4_normalizer [⟨0, none, some "DIRECT_DEBIT", 10⟩] 0 0 (by simp)

/-! ### Claim C6: the current-rate lookup's fallback branch -/

/-- C6 failing input, evaluated: two currently valid rates with bounded
`valid_to` (so the preferred ongoing-direct-debit branch is empty); the
fallback sorts by `(payment_method != "DIRECT_DEBIT", -1)` with
`reverse=True`, which puts the NON-direct-debit rate first, so the code
returns its price 20 — while the claim (and the code's own comment,
"Prefer DIRECT_DEBIT") require the direct-debit price 10. -/
theorem claim6_fallback_eval :
    getCurrentRate [⟨0, some 100, some "DIRECT_DEBIT", 10⟩, ⟨0, some 100, none, 20⟩] 50 =
      some 20 := by
  have hc : currentSortDesc [⟨0, some 100, some "DIRECT_DEBIT", 10⟩, ⟨0, some 100, none, 20⟩] =
      [⟨0, some 100, none, 20⟩, ⟨0, some 100, some "DIRECT_DEBIT", 10⟩] := by
    decide
  norm_num [getCurrentRate, isDD, isValidNow, hc, pyRound]

end OctopusTariff

